import Mathlib

/-!
Verification development for the gitrows-go repository: a Git-backed
key-value store.  The definitions below are a shallow embedding of the Go
source (gitrow.go, gitrow_impl.go, pkg/giturl/parser.go).  The external
collaborators (go-git, go-billy, net/url, the Go standard path package)
are embedded at the level of behaviour the key-value layer observes:
the Go path functions are translated in full, the repository state is an
explicit record (remote tip, local tip, working tree), and the remote
git outcomes are enumerated so that the error-classification code of
gitClone and gitFetch can be stated exactly as written.
-/

deriving instance DecidableEq for Except

namespace Gitrows

/-! ### String primitives

Structurally recursive forms of the string operations the Go source
relies on (splitting on "/", joining, white-space trimming, ASCII
lowering, literal-prefix testing), so that every definition in this file
evaluates inside the kernel. -/

def splitSlashAux : List Char → List Char → List (List Char)
  | acc, [] => [acc.reverse]
  | acc, c :: rest =>
    if c = '/' then acc.reverse :: splitSlashAux [] rest
    else splitSlashAux (c :: acc) rest

/-- strings.Split on "/" (the splitting path.Clean and path.Dir use). -/
def splitSlash (p : String) : List String :=
  (splitSlashAux [] p.toList).map String.mk

/-- strings.Join with separator "/". -/
def joinSlash : List String → String
  | [] => ""
  | [s] => s
  | s :: rest => s ++ "/" ++ joinSlash rest

def headIsSlash (p : String) : Bool :=
  match p.toList with
  | c :: _ => c = '/'
  | [] => false

/-- Literal prefix test on the underlying characters. -/
def strStartsWith (s pre : String) : Bool :=
  s.toList.take pre.toList.length == pre.toList

/-- unicode.IsSpace restricted to the Latin-1 range (the full set for
the ASCII commit messages and prefixes this library handles). -/
def isGoSpace (c : Char) : Bool :=
  c.toNat = 32 || c.toNat = 9 || c.toNat = 10 || c.toNat = 11 ||
    c.toNat = 12 || c.toNat = 13 || c.toNat = 0x85 || c.toNat = 0xA0

/-- strings.TrimSpace. -/
def goTrimSpace (s : String) : String :=
  String.mk (((s.toList.dropWhile isGoSpace).reverse.dropWhile isGoSpace).reverse)

def charToLower (c : Char) : Char :=
  if 65 ≤ c.toNat ∧ c.toNat ≤ 90 then Char.ofNat (c.toNat + 32) else c

/-- strings.ToLower restricted to ASCII (enough for URL schemes). -/
def goToLower (s : String) : String :=
  String.mk (s.toList.map charToLower)

/-! ### Go standard library: path.Clean and path.Dir

`path.Clean` (lexical cleaning of slash-separated paths): repeated
separators are collapsed, "." elements are removed, ".." elements
consume the preceding element (at the start of a rooted path they are
dropped, at the start of a relative path they are kept), the empty path
cleans to ".".  Implemented with an explicit segment stack, top of the
stack at the head of the list. -/

def cleanSegs (rooted : Bool) : List String → List String → List String
  | stack, [] => stack
  | stack, seg :: rest =>
    if seg = "" ∨ seg = "." then
      cleanSegs rooted stack rest
    else if seg = ".." then
      match stack with
      | [] => cleanSegs rooted (if rooted then [] else [".."]) rest
      | top :: stackTail =>
        if top = ".." then cleanSegs rooted (".." :: stack) rest
        else cleanSegs rooted stackTail rest
    else
      cleanSegs rooted (seg :: stack) rest

/-- Go `path.Clean`. -/
def pathClean (p : String) : String :=
  if p = "" then "."
  else
    let rooted := headIsSlash p
    let stack := cleanSegs rooted [] (splitSlash p)
    let body := joinSlash stack.reverse
    if body = "" then (if rooted then "/" else ".")
    else if rooted then "/" ++ body else body

/-- Go `path.Dir`: everything up to (and including) the final slash,
cleaned; "." when the path holds no slash. -/
def pathDir (p : String) : String :=
  let parts := splitSlash p
  if parts.length ≤ 1 then "."
  else pathClean (joinSlash parts.dropLast ++ "/")

/-! ### Working-tree model

The worktree filesystem is a flat association list from (cleaned) paths
to byte contents; bytes are modelled as naturals.  `fsStat` reports a
directory when some stored file lives strictly below the queried path,
mirroring what `os.Stat` reports on the checked-out tree. -/

abbrev Bytes := List Nat

abbrev Fs := List (String × Bytes)

inductive StatInfo where
  | file (data : Bytes)
  | dir
deriving DecidableEq, Repr

def fsStat (fs : Fs) (k : String) : Option StatInfo :=
  match fs.find? (fun p => decide (p.1 = k)) with
  | some p => some (StatInfo.file p.2)
  | none =>
    if fs.any (fun p => strStartsWith p.1 (k ++ "/")) then some StatInfo.dir
    else none

/-- Truncate-then-write: replace the stored contents of `k` entirely, or
append a fresh entry when `k` is absent (billy OpenFile with O_CREATE
followed by Truncate(0) and Write). -/
def fsWrite (fs : Fs) (k : String) (v : Bytes) : Fs :=
  if fs.any (fun p => decide (p.1 = k)) then
    fs.map (fun p => if p.1 = k then (k, v) else p)
  else
    fs ++ [(k, v)]

def fsRemove (fs : Fs) (k : String) : Fs :=
  fs.filter (fun p => decide (p.1 ≠ k))

/-! ### Repository state

One handle: remote branch tip (identifier and tree), local branch tip,
working tree, a counter allocating fresh revision identifiers, and the
message of the most recently created revision. -/

structure Repo where
  remoteTipId : Nat
  remoteTree : Fs
  localTipId : Nat
  localTree : Fs
  worktree : Fs
  nextId : Nat
  lastCommitMsg : String
deriving DecidableEq, Repr

inductive Err where
  | keyExists
  | isDirectory
  | notFound
  | emptyCommit
deriving DecidableEq, Repr

/-- The successful Synchronizer run (gitClone, gitFetch, gitCheckout on
the happy path): the local branch reference is forced to the remote tip
and the working area is hard-reset to that tip's tree. -/
def forcePull (r : Repo) : Repo :=
  { r with
    localTipId := r.remoteTipId
    localTree := r.remoteTree
    worktree := r.remoteTree }

/-- `git status` cleanliness: the working tree equals the tip tree. -/
def isClean (r : Repo) : Bool :=
  decide (r.worktree = r.localTree)

/-- `Worktree.Commit` with AllowEmptyCommits: an empty commit (no change
against the tip) is refused unless explicitly allowed; otherwise a fresh
revision identifier is allocated and the tip moves to the working tree. -/
def commit (r : Repo) (msg : String) (allowEmpty : Bool) : Except Err (Repo × Nat) :=
  if allowEmpty = false ∧ r.worktree = r.localTree then
    Except.error Err.emptyCommit
  else
    Except.ok
      ({ r with
          localTipId := r.nextId
          localTree := r.worktree
          nextId := r.nextId + 1
          lastCommitMsg := msg },
        r.nextId)

/-- Forced atomic push: the remote branch reference is moved to the
local tip. -/
def push (r : Repo) : Repo :=
  { r with remoteTipId := r.localTipId, remoteTree := r.localTree }

inductive WriteMode where
  | create
  | upsert
deriving DecidableEq, Repr

/-- DBImpl.writeFile: stat the key, apply the mode precondition (CREATE
demands absence; UPSERT refuses directories), then truncate-and-write
and stage.  The key reaches this function already cleaned by the caller
(the function's own re-clean in the source is idempotent on it). -/
def writeFile (fs : Fs) (key : String) (data : Bytes) (mode : WriteMode) : Except Err Fs :=
  match mode with
  | WriteMode.create =>
    match fsStat fs key with
    | some _ => Except.error Err.keyExists
    | none => Except.ok (fsWrite fs key data)
  | WriteMode.upsert =>
    match fsStat fs key with
    | some StatInfo.dir => Except.error Err.isDirectory
    | _ => Except.ok (fsWrite fs key data)

/-! ### Option configs (gitrow.go) -/

structure CreateConfig where
  commitMsg : String
deriving DecidableEq, Repr

def createConfigDefault : CreateConfig :=
  { commitMsg := "gitrows: CREATE" }

def createCommitMsg (msg : String) (cfg : CreateConfig) : CreateConfig :=
  let m := goTrimSpace msg
  if m = "" then cfg else { cfg with commitMsg := m }

structure UpsertConfig where
  commitMsg : String
  allowEmptyCommit : Bool
deriving DecidableEq, Repr

def upsertConfigDefault : UpsertConfig :=
  { commitMsg := "gitrows: UPSERT", allowEmptyCommit := false }

def upsertCommitMsg (msg : String) (cfg : UpsertConfig) : UpsertConfig :=
  let m := goTrimSpace msg
  if m = "" then cfg else { cfg with commitMsg := m }

def upsertAllowEmptyCommit (b : Bool) (cfg : UpsertConfig) : UpsertConfig :=
  { cfg with allowEmptyCommit := b }

structure DeleteConfig where
  commitMsg : String
deriving DecidableEq, Repr

def deleteConfigDefault : DeleteConfig :=
  { commitMsg := "gitrows: DELETE" }

def deleteCommitMsg (msg : String) (cfg : DeleteConfig) : DeleteConfig :=
  let m := goTrimSpace msg
  if m = "" then cfg else { cfg with commitMsg := m }

structure ListConfig where
  pfx : String
deriving DecidableEq, Repr

def listConfigDefault : ListConfig :=
  { pfx := "" }

def listPrefixOption (s : String) (cfg : ListConfig) : ListConfig :=
  { cfg with pfx := goTrimSpace s }

/-! ### Public operations (gitrow_impl.go)

Each operation returns the repository state it leaves behind together
with its result; on a precondition failure the state is the one reached
at the failure point (synchronized, nothing staged, nothing published). -/

/-- DBImpl.Get: clean the key, synchronize, read the file in full. -/
def get (r : Repo) (key : String) : Repo × Except Err Bytes :=
  let k := pathClean key
  let r0 := forcePull r
  match fsStat r0.worktree k with
  | some (StatInfo.file d) => (r0, Except.ok d)
  | some StatInfo.dir => (r0, Except.error Err.isDirectory)
  | none => (r0, Except.error Err.notFound)

/-- DBImpl.Create: clean the key, synchronize, write in CREATE mode,
commit (empty commits disallowed), force-push. -/
def create (r : Repo) (key : String) (data : Bytes) (cfg : CreateConfig) :
    Repo × Except Err Nat :=
  let k := pathClean key
  let r0 := forcePull r
  match writeFile r0.worktree k data WriteMode.create with
  | Except.error e => (r0, Except.error e)
  | Except.ok wt =>
    let r1 : Repo := { r0 with worktree := wt }
    match commit r1 cfg.commitMsg false with
    | Except.error e => (r1, Except.error e)
    | Except.ok (r2, id) => (push r2, Except.ok id)

/-- DBImpl.Upsert: clean the key, synchronize, write in UPSERT mode,
inspect `git status`; with empty commits disallowed and a clean tree,
return the current head and changed=false without committing; otherwise
commit and force-push, returning the new revision id and the changed
flag computed from the status. -/
def upsert (r : Repo) (key : String) (data : Bytes) (cfg : UpsertConfig) :
    Repo × Except Err (Nat × Bool) :=
  let k := pathClean key
  let r0 := forcePull r
  match writeFile r0.worktree k data WriteMode.upsert with
  | Except.error e => (r0, Except.error e)
  | Except.ok wt =>
    let r1 : Repo := { r0 with worktree := wt }
    let changed : Bool := !(isClean r1)
    if cfg.allowEmptyCommit = false ∧ changed = false then
      (r1, Except.ok (r1.localTipId, changed))
    else
      match commit r1 cfg.commitMsg cfg.allowEmptyCommit with
      | Except.error e => (r1, Except.error e)
      | Except.ok (r2, id) => (push r2, Except.ok (id, changed))

/-- DBImpl.Delete: clean the key, synchronize, remove the file (error
when absent), stage, commit (empty commits disallowed), force-push. -/
def delete (r : Repo) (key : String) (cfg : DeleteConfig) :
    Repo × Except Err Nat :=
  let k := pathClean key
  let r0 := forcePull r
  match fsStat r0.worktree k with
  | none => (r0, Except.error Err.notFound)
  | some _ =>
    let r1 : Repo := { r0 with worktree := fsRemove r0.worktree k }
    match commit r1 cfg.commitMsg false with
    | Except.error e => (r1, Except.error e)
    | Except.ok (r2, id) => (push r2, Except.ok id)

/-! ### List engine (gitrow_impl.go, List)

The tree walk produces one candidate per blob of the tip tree; the loop
body's filter branch tests a non-empty (cleaned) configured path filter
against the blob's immediate parent directory.  The source appends the
entry in both the matching branch and the fall-through, which is kept
verbatim here. -/

def listCollectStep (cfgPfx : String) (acc : List String) (fileName : String) :
    List String :=
  if pathClean cfgPfx ≠ "" ∧ pathDir fileName = cfgPfx then
    acc ++ [fileName]
  else
    acc ++ [fileName]

def listCollect (cfgPfx : String) (files : List String) : List String :=
  files.foldl (listCollectStep cfgPfx) []

/-- Last-commit attribution per listed path (List, after
getLastCommitForPaths returns the map `revs`): the tip commit is used as
the default and is overridden only when the map holds a non-nil commit
for the path. -/
def resolveLastCommit (tip : Nat) (revs : List (String × Option Nat)) (key : String) :
    Nat :=
  match revs.find? (fun p => decide (p.1 = key)) with
  | some (_, some lc) => lc
  | _ => tip

/-! ### Synchronizer error classification (gitClone / gitFetch)

The go-git calls are external; their possible outcomes are enumerated
and the classification logic of the source is stated over them. -/

inductive CloneOutcome where
  | cloned
  | repoAlreadyExists
  | emptyRemote
  | failed (msg : String)
deriving DecidableEq, Repr

inductive CloneState where
  | cloned
  | openedExisting
  | initializedEmpty
deriving DecidableEq, Repr

/-- DBImpl.gitClone: ErrRepositoryAlreadyExists is discarded (the
existing mirror is opened), ErrEmptyRemoteRepository is discarded and an
empty local repository is initialized in its place, any other error
aborts. -/
def gitClone : CloneOutcome → Except String CloneState
  | CloneOutcome.cloned => Except.ok CloneState.cloned
  | CloneOutcome.repoAlreadyExists => Except.ok CloneState.openedExisting
  | CloneOutcome.emptyRemote => Except.ok CloneState.initializedEmpty
  | CloneOutcome.failed m => Except.error ("clone repository error: " ++ m)

inductive FetchOutcome where
  | fetched
  | alreadyUpToDate
  | emptyRemote
  | failed (msg : String)
deriving DecidableEq, Repr

inductive FetchState where
  | fetched
  | upToDate
  | symbolicHeadSet
deriving DecidableEq, Repr

/-- DBImpl.gitFetch: NoErrAlreadyUpToDate is discarded,
ErrEmptyRemoteRepository makes the HEAD a symbolic reference to the
still-unborn branch, any other error aborts. -/
def gitFetch : FetchOutcome → Except String FetchState
  | FetchOutcome.fetched => Except.ok FetchState.fetched
  | FetchOutcome.alreadyUpToDate => Except.ok FetchState.upToDate
  | FetchOutcome.emptyRemote => Except.ok FetchState.symbolicHeadSet
  | FetchOutcome.failed m => Except.error ("cannot git fetch: " ++ m)

/-- DBImpl.forcePull, restricted to the clone and fetch stages: the
first failing stage aborts the whole synchronization. -/
def forcePullSync (c : CloneOutcome) (f : FetchOutcome) :
    Except String (CloneState × FetchState) :=
  match gitClone c with
  | Except.error e => Except.error ("git clone error: " ++ e)
  | Except.ok cs =>
    match gitFetch f with
    | Except.error e => Except.error ("git fetch error: " ++ e)
    | Except.ok fs => Except.ok (cs, fs)

/-! ### pkg/giturl Parse

The SCP-address regular expression
`([a-zA-Z0-9_]+)@([a-zA-Z0-9._-]+):(.*)$` anchored at both ends is
translated by maximal-munch over the two character classes (neither
class holds `@` or `:`, so the greedy run is the only possible match);
RE2's `.` never matches a newline and `$` is the end of the text, so a
newline after the colon defeats the match.  net/url is embedded for the
fragment the parser observes: scheme extraction (letter-led runs of
letters, digits, `+`, `-`, `.` terminated by a colon), the lowercasing
of the scheme that url.Parse performs, the control-character and
missing-scheme errors, and re-serialization, restricted to inputs that
percent-escaping would leave untouched. -/

def isUserChar (c : Char) : Bool :=
  c.isAlpha || c.isDigit || c == '_'

def isHostChar (c : Char) : Bool :=
  c.isAlpha || c.isDigit || c == '.' || c == '_' || c == '-'

def scpMatch (s : String) : Option (String × String × String) :=
  let cs := s.toList
  let user := cs.takeWhile isUserChar
  match cs.dropWhile isUserChar with
  | '@' :: rest2 =>
    if user.isEmpty then none
    else
      let host := rest2.takeWhile isHostChar
      match rest2.dropWhile isHostChar with
      | ':' :: pathChars =>
        if host.isEmpty then none
        else if pathChars.contains '\n' then none
        else some (String.mk user, String.mk host, String.mk pathChars)
      | _ => none
  | _ => none

def isSchemeChar (c : Char) : Bool :=
  c.isAlpha || c.isDigit || c == '+' || c == '-' || c == '.'

structure GoURL where
  scheme : String
  rest : String
deriving DecidableEq, Repr

def isCtlChar (c : Char) : Bool :=
  c.toNat < 0x20 || c.toNat == 0x7f

/-- net/url getScheme followed by url.Parse's scheme lowercasing: a
scheme is recognized exactly when the input opens with a letter-led run
of scheme characters terminated by a colon; a leading colon is the
"missing protocol scheme" error; control characters are refused by
url.Parse before any parsing. -/
def urlParse (s : String) : Except String GoURL :=
  if s.toList.any isCtlChar then
    Except.error "invalid control character in URL"
  else
    match s.toList with
    | ':' :: _ => Except.error "missing protocol scheme"
    | c :: _ =>
      match s.toList.dropWhile isSchemeChar with
      | ':' :: r =>
        if c.isAlpha then
          Except.ok
            { scheme := goToLower (String.mk (s.toList.takeWhile isSchemeChar))
              rest := String.mk r }
        else Except.ok { scheme := "", rest := s }
      | _ => Except.ok { scheme := "", rest := s }
    | [] => Except.ok { scheme := "", rest := s }

/-- url.URL.String for the embedded fragment. -/
def urlString (u : GoURL) : String :=
  if u.scheme = "" then u.rest else u.scheme ++ ":" ++ u.rest

/-- url.URL.String for the URL built by the SCP branch (scheme ssh, a
user, a host and a path; a slash is inserted before a non-empty path
that does not already open with one). -/
def scpURLString (user host p : String) : String :=
  "ssh://" ++ user ++ "@" ++ host ++
    (if p = "" || headIsSlash p then p else "/" ++ p)

inductive RepoURL where
  | scp (user host p : String)
  | generic (u : GoURL)
deriving DecidableEq, Repr

def repoURLScheme : RepoURL → String
  | RepoURL.scp _ _ _ => "ssh"
  | RepoURL.generic u => u.scheme

def repoURLString : RepoURL → String
  | RepoURL.scp user host p => scpURLString user host p
  | RepoURL.generic u => urlString u

def vcsGitScheme : List String :=
  ["git", "https", "http", "git+ssh", "ssh"]

/-- giturl.Parse: SCP-like addresses are rebuilt as ssh URLs, everything
else is URL-parsed; the serialization is returned when the scheme is one
of the five git schemes, otherwise the function errors. -/
def giturlParse (s : String) : Except String String :=
  let parsed : Except String RepoURL :=
    match scpMatch s with
    | some (user, host, p) => Except.ok (RepoURL.scp user host p)
    | none => (urlParse s).map RepoURL.generic
  match parsed with
  | Except.error e => Except.error e
  | Except.ok u =>
    if vcsGitScheme.contains (repoURLScheme u) then
      Except.ok (repoURLString u)
    else
      Except.error ("unable to parse output of git url: " ++ s)

/-! ### Concrete repositories used by the witnesses -/

def repoOne : Repo :=
  { remoteTipId := 5, remoteTree := [("k", [1])], localTipId := 5,
    localTree := [("k", [1])], worktree := [("k", [1])], nextId := 6,
    lastCommitMsg := "init" }

def repoEmpty : Repo :=
  { remoteTipId := 0, remoteTree := [], localTipId := 0, localTree := [],
    worktree := [], nextId := 1, lastCommitMsg := "" }

/-- The key normalization the specification describes, stated from its
words alone for comparison with the source's path.Clean: duplicate
separators and "." segments collapsed, a leading "/" stripped. -/
def specNormalizeKey (s : String) : String :=
  joinSlash ((splitSlash s).filter (fun seg => !(seg == "") && !(seg == ".")))

/-! ### Helper lemmas -/

theorem find?_map_replace (k : String) (v : Bytes) :
    ∀ fs : Fs, fs.any (fun p => decide (p.1 = k)) = true →
      (fs.map (fun p => if p.1 = k then (k, v) else p)).find?
        (fun p => decide (p.1 = k)) = some (k, v) := by
  intro fs
  induction fs with
  | nil => intro h; simp at h
  | cons p fs ih =>
    intro h
    rw [List.any_cons] at h
    by_cases hp : p.1 = k
    · simp [hp, List.find?]
    · have hfs : fs.any (fun p => decide (p.1 = k)) = true := by
        rcases Bool.or_eq_true_iff.mp h with h1 | h1
        · exact absurd (of_decide_eq_true h1) hp
        · exact h1
      simp only [List.map_cons, if_neg hp, List.find?]
      rw [decide_eq_false hp]
      exact ih hfs

theorem find?_append_new (k : String) (v : Bytes) :
    ∀ fs : Fs, fs.any (fun p => decide (p.1 = k)) = false →
      (fs ++ [(k, v)]).find? (fun p => decide (p.1 = k)) = some (k, v) := by
  intro fs
  induction fs with
  | nil => intro _; simp [List.find?]
  | cons p fs ih =>
    intro h
    rw [List.any_cons] at h
    rcases Bool.or_eq_false_iff.mp h with ⟨hp1, hfs⟩
    have hp : ¬ p.1 = k := of_decide_eq_false hp1
    simp only [List.cons_append, List.find?]
    rw [decide_eq_false hp]
    exact ih hfs

theorem find?_fsWrite (fs : Fs) (k : String) (v : Bytes) :
    (fsWrite fs k v).find? (fun p => decide (p.1 = k)) = some (k, v) := by
  by_cases h : fs.any (fun p => decide (p.1 = k)) = true
  · rw [fsWrite, if_pos h]
    exact find?_map_replace k v fs h
  · have hf : fs.any (fun p => decide (p.1 = k)) = false :=
      Bool.eq_false_iff.mpr h
    rw [fsWrite, if_neg h]
    exact find?_append_new k v fs hf

theorem fsStat_fsWrite (fs : Fs) (k : String) (v : Bytes) :
    fsStat (fsWrite fs k v) k = some (StatInfo.file v) := by
  rw [fsStat, find?_fsWrite]

theorem writeFile_ok_eq (fs : Fs) (key : String) (data : Bytes) (mode : WriteMode)
    (wt : Fs) (h : writeFile fs key data mode = Except.ok wt) :
    wt = fsWrite fs key data := by
  cases mode with
  | create =>
    rw [writeFile] at h
    cases hs : fsStat fs key with
    | some i => rw [hs] at h; cases h
    | none => rw [hs] at h; cases h; rfl
  | upsert =>
    rw [writeFile] at h
    cases hs : fsStat fs key with
    | some i =>
      cases i with
      | file d => rw [hs] at h; cases h; rfl
      | dir => rw [hs] at h; cases h
    | none => rw [hs] at h; cases h; rfl

theorem commit_ok_eq (r : Repo) (msg : String) (ae : Bool) (r2 : Repo) (id : Nat)
    (h : commit r msg ae = Except.ok (r2, id)) :
    r2 = { r with localTipId := r.nextId, localTree := r.worktree,
                  nextId := r.nextId + 1, lastCommitMsg := msg } ∧ id = r.nextId := by
  rw [commit] at h
  by_cases hc : ae = false ∧ r.worktree = r.localTree
  · rw [if_pos hc] at h; simp at h
  · rw [if_neg hc] at h
    simp only [Except.ok.injEq, Prod.mk.injEq] at h
    exact ⟨h.1.symm, h.2.symm⟩

theorem upsert_noop_eq (r : Repo) (k : String) (v : Bytes) (cfg : UpsertConfig) (wt : Fs)
    (hW : writeFile (forcePull r).worktree (pathClean k) v WriteMode.upsert = Except.ok wt)
    (hA : cfg.allowEmptyCommit = false)
    (hclean : wt = (forcePull r).localTree) :
    upsert r k v cfg =
      ({ forcePull r with worktree := wt }, Except.ok ((forcePull r).localTipId, false)) := by
  simp only [upsert, hW]
  have hch : (!(isClean { forcePull r with worktree := wt })) = false := by
    simp [isClean, hclean]
  rw [if_pos ⟨hA, hch⟩, hch]

theorem upsert_commit_eq (r : Repo) (k : String) (v : Bytes) (cfg : UpsertConfig) (wt : Fs)
    (hW : writeFile (forcePull r).worktree (pathClean k) v WriteMode.upsert = Except.ok wt)
    (hne : cfg.allowEmptyCommit = true ∨ wt ≠ (forcePull r).localTree) :
    upsert r k v cfg =
      ({ remoteTipId := r.nextId, remoteTree := wt, localTipId := r.nextId,
         localTree := wt, worktree := wt, nextId := r.nextId + 1,
         lastCommitMsg := cfg.commitMsg },
        Except.ok (r.nextId, !(decide (wt = (forcePull r).localTree)))) := by
  simp only [upsert, hW]
  have hnotc : ¬ (cfg.allowEmptyCommit = false ∧
      (!(isClean { forcePull r with worktree := wt })) = false) := by
    rintro ⟨h1, h2⟩
    simp [isClean] at h2
    rcases hne with h3 | h3
    · rw [h1] at h3; cases h3
    · exact h3 h2
  rw [if_neg hnotc]
  have hcommit : commit { forcePull r with worktree := wt } cfg.commitMsg cfg.allowEmptyCommit =
      Except.ok
        (({ remoteTipId := (forcePull r).remoteTipId, remoteTree := (forcePull r).remoteTree,
            localTipId := r.nextId, localTree := wt, worktree := wt,
            nextId := r.nextId + 1, lastCommitMsg := cfg.commitMsg } : Repo), r.nextId) := by
    rw [commit]
    rw [if_neg]
    · rfl
    · rintro ⟨h1, h2⟩
      rcases hne with h3 | h3
      · rw [h1] at h3; cases h3
      · exact h3 h2
  rw [hcommit]
  rfl

theorem create_ok_msg (r : Repo) (k : String) (v : Bytes) (cfg : CreateConfig) (id : Nat)
    (h : (create r k v cfg).2 = Except.ok id) :
    ((create r k v cfg).1).lastCommitMsg = cfg.commitMsg := by
  cases hw : writeFile (forcePull r).worktree (pathClean k) v WriteMode.create with
  | error e => simp only [create, hw] at h; simp at h
  | ok wt =>
    simp only [create, hw] at h ⊢
    cases hc : commit { forcePull r with worktree := wt } cfg.commitMsg false with
    | error e => simp only [hc] at h; simp at h
    | ok p =>
      obtain ⟨r2, id2⟩ := p
      simp only [hc] at h ⊢
      have h2 := (commit_ok_eq _ _ _ _ _ hc).1
      rw [h2]
      rfl

theorem delete_ok_msg (r : Repo) (k : String) (cfg : DeleteConfig) (id : Nat)
    (h : (delete r k cfg).2 = Except.ok id) :
    ((delete r k cfg).1).lastCommitMsg = cfg.commitMsg := by
  cases hs : fsStat (forcePull r).worktree (pathClean k) with
  | none => simp only [delete, hs] at h; simp at h
  | some i =>
    simp only [delete, hs] at h ⊢
    cases hc : commit { forcePull r with worktree := fsRemove (forcePull r).worktree (pathClean k) }
        cfg.commitMsg false with
    | error e => simp only [hc] at h; simp at h
    | ok p =>
      obtain ⟨r2, id2⟩ := p
      simp only [hc] at h ⊢
      have h2 := (commit_ok_eq _ _ _ _ _ hc).1
      rw [h2]
      rfl

theorem upsert_true_msg (r : Repo) (k : String) (v : Bytes) (cfg : UpsertConfig) (id : Nat)
    (h : (upsert r k v cfg).2 = Except.ok (id, true)) :
    ((upsert r k v cfg).1).lastCommitMsg = cfg.commitMsg := by
  cases hw : writeFile (forcePull r).worktree (pathClean k) v WriteMode.upsert with
  | error e => simp only [upsert, hw] at h; simp at h
  | ok wt =>
    by_cases hcond : cfg.allowEmptyCommit = false ∧ wt = (forcePull r).localTree
    · rw [upsert_noop_eq r k v cfg wt hw hcond.1 hcond.2] at h
      simp at h
    · have hne : cfg.allowEmptyCommit = true ∨ wt ≠ (forcePull r).localTree := by
        by_cases hA : cfg.allowEmptyCommit = false
        · right; intro hEq; exact hcond ⟨hA, hEq⟩
        · left; simp at hA; exact hA
      rw [upsert_commit_eq r k v cfg wt hw hne]

theorem contains_vcs (s : String) :
    vcsGitScheme.contains s = true ↔
      (s = "git" ∨ s = "https" ∨ s = "http" ∨ s = "git+ssh" ∨ s = "ssh") := by
  simp [vcsGitScheme, List.contains]

/-! ### Claims -/

/-- C1: the List prefix filter is claimed to keep exactly the blobs
whose immediate parent directory equals the prefix.  The source appends
every blob in both branches of the filter test, so with the filter set
to "a" the entry under "b" survives even though its parent directory is
not "a": the option has no effect at all. -/
theorem claim_C1_prefix_filter_has_no_effect :
    (listPrefixOption "a" listConfigDefault).pfx = "a" ∧
    listCollect "a" ["a/x", "b/y"] = ["a/x", "b/y"] ∧
    pathDir "b/y" ≠ "a" ∧
    (["a/x", "b/y"].filter (fun f => decide (pathDir f = "a"))) = ["a/x"] := by
  decide

/-- C6: during synchronization the already-exists clone outcome and the
already-up-to-date fetch outcome are successes, an entirely empty remote
yields a freshly initialized empty local repository rather than a
failure (and on fetch a symbolic HEAD for the unborn branch), and every
genuine clone or fetch failure aborts the enclosing synchronization. -/
theorem claim_C6_sync_error_classification :
    gitClone CloneOutcome.repoAlreadyExists = Except.ok CloneState.openedExisting ∧
    gitClone CloneOutcome.emptyRemote = Except.ok CloneState.initializedEmpty ∧
    gitFetch FetchOutcome.alreadyUpToDate = Except.ok FetchState.upToDate ∧
    gitFetch FetchOutcome.emptyRemote = Except.ok FetchState.symbolicHeadSet ∧
    forcePullSync CloneOutcome.repoAlreadyExists FetchOutcome.alreadyUpToDate =
      Except.ok (CloneState.openedExisting, FetchState.upToDate) ∧
    (∀ m f, ∃ e, forcePullSync (CloneOutcome.failed m) f = Except.error e) ∧
    (∀ c m, ∃ e, forcePullSync c (FetchOutcome.failed m) = Except.error e) := by
  refine ⟨rfl, rfl, rfl, rfl, rfl, ?_, ?_⟩
  · intro m f
    exact ⟨_, rfl⟩
  · intro c m
    cases c <;> exact ⟨_, rfl⟩

/-- C9: when last-commit resolution yields nothing for a listed path
(the path is absent from the resolved map, or mapped to nil), the tip
commit is reported for that path. -/
theorem claim_C9_last_commit_falls_back_to_tip :
    ∀ (tip : Nat) (revs : List (String × Option Nat)) (key : String),
      (revs.find? (fun p => decide (p.1 = key)) = none →
        resolveLastCommit tip revs key = tip) ∧
      (∀ k0, revs.find? (fun p => decide (p.1 = key)) = some (k0, none) →
        resolveLastCommit tip revs key = tip) := by
  intro tip revs key
  constructor
  · intro h
    rw [resolveLastCommit, h]
  · intro k0 h
    rw [resolveLastCommit, h]

/-- C9 witness: a one-entry resolved map that misses the queried path
makes the tip (7) the reported last commit. -/
theorem claim_C9_witness :
    resolveLastCommit 7 [("a", Option.none)] "b" = 7 :=
  (claim_C9_last_commit_falls_back_to_tip 7 [("a", Option.none)] "b").1 (by decide)

/-- C7 counterexample: the claimed normalization strips a leading "/",
but the source normalizes with path.Clean, which preserves it: on the
key "/a" the two disagree. -/
theorem claim_C7_counterexample :
    pathClean "/a" = "/a" ∧ specNormalizeKey "/a" = "a" ∧ ("/a" : String) ≠ "a" := by
  decide

/-- C7 (amended): every key passed to Get, Create, Upsert or Delete is
normalized with path.Clean before use (duplicate separators and "."
segments collapsed, ".." segments resolved, a leading "/" preserved),
and keys with equal cleaned forms are treated identically by all four
operations. -/
theorem claim_C7_keys_normalized_with_clean :
    pathClean "a//b/./c" = "a/b/c" ∧
    pathClean "x/../y" = "y" ∧
    ∀ k1 k2, pathClean k1 = pathClean k2 →
      (∀ r, get r k1 = get r k2) ∧
      (∀ r v cfg, create r k1 v cfg = create r k2 v cfg) ∧
      (∀ r v cfg, upsert r k1 v cfg = upsert r k2 v cfg) ∧
      (∀ r cfg, delete r k1 cfg = delete r k2 cfg) := by
  refine ⟨by decide, by decide, ?_⟩
  intro k1 k2 h
  refine ⟨?_, ?_, ?_, ?_⟩
  · intro r; simp only [get, h]
  · intro r v cfg; simp only [create, h]
  · intro r v cfg; simp only [upsert, h]
  · intro r cfg; simp only [delete, h]

/-- C7 witness: "a//b" and "a/b" clean to the same key and Get treats
them identically. -/
theorem claim_C7_witness :
    get repoOne "a//b" = get repoOne "a/b" :=
  ((claim_C7_keys_normalized_with_clean.2.2 "a//b" "a/b" (by decide)).1) repoOne

/-- C2: an Upsert that stages no change against the current tip, with
the empty-revision allowance disabled (its documented default), creates
no revision and publishes nothing: it succeeds with the current tip
revision identifier and changed=false. -/
theorem claim_C2_upsert_noop_short_circuit :
    upsertConfigDefault.allowEmptyCommit = false ∧
    ∀ r k v cfg, cfg.allowEmptyCommit = false →
      writeFile (forcePull r).worktree (pathClean k) v WriteMode.upsert =
        Except.ok (forcePull r).localTree →
      (upsert r k v cfg).2 = Except.ok ((forcePull r).localTipId, false) ∧
      (upsert r k v cfg).1.nextId = r.nextId ∧
      (upsert r k v cfg).1.remoteTipId = r.remoteTipId ∧
      (upsert r k v cfg).1.remoteTree = r.remoteTree := by
  refine ⟨rfl, ?_⟩
  intro r k v cfg hA hW
  rw [upsert_noop_eq r k v cfg _ hW hA rfl]
  exact ⟨rfl, rfl, rfl, rfl⟩

/-- C2 witness: upserting the identical content [1] at key "k" of
repoOne returns the prior tip (5) with changed=false. -/
theorem claim_C2_witness :
    (upsert repoOne "k" [1] upsertConfigDefault).2 =
      Except.ok ((forcePull repoOne).localTipId, false) :=
  (claim_C2_upsert_noop_short_circuit.2 repoOne "k" [1] upsertConfigDefault rfl
    (by decide)).1

/-- C3 counterexample: with empty revisions explicitly enabled and the
staged content identical to the tip, the short circuit is not taken and
a new revision (6) is committed and published, yet Upsert returns
changed=false, not the changed=true the claim demands. -/
theorem claim_C3_counterexample :
    (upsertAllowEmptyCommit true upsertConfigDefault).allowEmptyCommit = true ∧
    (upsert repoOne "k" [1] (upsertAllowEmptyCommit true upsertConfigDefault)).2 =
      Except.ok (6, false) ∧
    (upsert repoOne "k" [1]
        (upsertAllowEmptyCommit true upsertConfigDefault)).1.remoteTipId = 6 ∧
    repoOne.localTipId = 5 := by
  decide

/-- C3 (amended): an Upsert that does not take the no-op short circuit
creates a new revision and publishes it, returning the new revision
identifier; the changed flag it returns reports whether the working
area actually differed from the tip — true whenever it differed, but
false when the commit happened only because empty revisions were
explicitly enabled. -/
theorem claim_C3_upsert_commits_and_publishes :
    ∀ r k v cfg wt,
      writeFile (forcePull r).worktree (pathClean k) v WriteMode.upsert = Except.ok wt →
      (cfg.allowEmptyCommit = true ∨ wt ≠ (forcePull r).localTree) →
      (upsert r k v cfg).2 = Except.ok (r.nextId, decide (wt ≠ (forcePull r).localTree)) ∧
      (upsert r k v cfg).1.remoteTipId = r.nextId ∧
      (upsert r k v cfg).1.localTipId = r.nextId ∧
      (upsert r k v cfg).1.remoteTree = wt ∧
      (upsert r k v cfg).1.nextId = r.nextId + 1 := by
  intro r k v cfg wt hW hne
  rw [upsert_commit_eq r k v cfg wt hW hne]
  refine ⟨?_, rfl, rfl, rfl, rfl⟩
  simp [decide_not]

/-- C3 witness: upserting [9] at the fresh key "x" of the empty
repository commits revision 1 and reports it with the changed flag. -/
theorem claim_C3_witness :
    (upsert repoEmpty "x" [9] upsertConfigDefault).2 =
      Except.ok (repoEmpty.nextId,
        decide (([("x", [9])] : Fs) ≠ (forcePull repoEmpty).localTree)) :=
  (claim_C3_upsert_commits_and_publishes repoEmpty "x" [9] upsertConfigDefault
    [("x", [9])] (by decide) (Or.inr (by decide))).1

/-- C4: Create on a key that already names an entry in the synchronized
working area fails with the key-exists condition, creates no revision,
publishes nothing, and leaves the stored value at that key unchanged. -/
theorem claim_C4_create_requires_absent_key :
    ∀ r k v cfg i,
      fsStat (forcePull r).worktree (pathClean k) = some i →
      (create r k v cfg).2 = Except.error Err.keyExists ∧
      (create r k v cfg).1 = forcePull r ∧
      (create r k v cfg).1.nextId = r.nextId ∧
      (create r k v cfg).1.remoteTipId = r.remoteTipId ∧
      (create r k v cfg).1.remoteTree = r.remoteTree ∧
      fsStat ((create r k v cfg).1).worktree (pathClean k) = some i := by
  intro r k v cfg i hS
  have hcr : create r k v cfg = (forcePull r, Except.error Err.keyExists) := by
    simp only [create, writeFile, hS]
  rw [hcr]
  exact ⟨rfl, rfl, rfl, rfl, rfl, hS⟩

/-- C4 witness: creating over the existing key "k" of repoOne fails
with the key-exists condition. -/
theorem claim_C4_witness :
    (create repoOne "k" [2] createConfigDefault).2 = Except.error Err.keyExists :=
  (claim_C4_create_requires_absent_key repoOne "k" [2] createConfigDefault
    (StatInfo.file [1]) (by decide)).1

/-- C5: a successful Upsert of content v at key k followed by Get of k
returns exactly v — the truncate-then-write makes the new content the
entire stored value, in both the no-op and the commit paths. -/
theorem claim_C5_upsert_get_round_trip :
    ∀ r k v cfg id ch,
      (upsert r k v cfg).2 = Except.ok (id, ch) →
      (get (upsert r k v cfg).1 k).2 = Except.ok v := by
  intro r k v cfg id ch h
  cases hw : writeFile (forcePull r).worktree (pathClean k) v WriteMode.upsert with
  | error e =>
    simp only [upsert, hw] at h
    simp at h
  | ok wt =>
    have hwt : wt = fsWrite (forcePull r).worktree (pathClean k) v :=
      writeFile_ok_eq _ _ _ _ _ hw
    by_cases hcond : cfg.allowEmptyCommit = false ∧ wt = (forcePull r).localTree
    · rw [upsert_noop_eq r k v cfg wt hw hcond.1 hcond.2]
      have h2 : r.remoteTree = wt := by
        have h3 := hcond.2
        simp only [forcePull] at h3
        exact h3.symm
      simp only [get, forcePull]
      rw [h2, hwt, fsStat_fsWrite]
    · have hne : cfg.allowEmptyCommit = true ∨ wt ≠ (forcePull r).localTree := by
        by_cases hA : cfg.allowEmptyCommit = false
        · right; intro hEq; exact hcond ⟨hA, hEq⟩
        · left; simp at hA; exact hA
      rw [upsert_commit_eq r k v cfg wt hw hne]
      simp only [get, forcePull]
      rw [hwt, fsStat_fsWrite]

/-- C5 witness: upserting [3, 4] at key "y" of the empty repository and
reading it back yields [3, 4]. -/
theorem claim_C5_witness :
    (get (upsert repoEmpty "y" [3, 4] upsertConfigDefault).1 "y").2 =
      Except.ok [3, 4] :=
  claim_C5_upsert_get_round_trip repoEmpty "y" [3, 4] upsertConfigDefault 1 true
    (by decide)

/-- C8: each commit-message option trims the supplied message, ignores
it when it is empty after trimming (the operation default stays), and
otherwise installs the trimmed text; whenever Create, Delete, or an
Upsert that changed the working area succeeds, the configured message is
the one recorded on the new revision. -/
theorem claim_C8_commit_message_option :
    (∀ m cfg, (createCommitMsg m cfg).commitMsg =
        if goTrimSpace m = "" then cfg.commitMsg else goTrimSpace m) ∧
    (∀ m cfg, (upsertCommitMsg m cfg).commitMsg =
        if goTrimSpace m = "" then cfg.commitMsg else goTrimSpace m) ∧
    (∀ m cfg, (deleteCommitMsg m cfg).commitMsg =
        if goTrimSpace m = "" then cfg.commitMsg else goTrimSpace m) ∧
    (∀ r k v cfg id, (create r k v cfg).2 = Except.ok id →
       ((create r k v cfg).1).lastCommitMsg = cfg.commitMsg) ∧
    (∀ r k cfg id, (delete r k cfg).2 = Except.ok id →
       ((delete r k cfg).1).lastCommitMsg = cfg.commitMsg) ∧
    (∀ r k v cfg id, (upsert r k v cfg).2 = Except.ok (id, true) →
       ((upsert r k v cfg).1).lastCommitMsg = cfg.commitMsg) := by
  refine ⟨?_, ?_, ?_, ?_, ?_, ?_⟩
  · intro m cfg
    by_cases h : goTrimSpace m = "" <;> simp [createCommitMsg, h]
  · intro m cfg
    by_cases h : goTrimSpace m = "" <;> simp [upsertCommitMsg, h]
  · intro m cfg
    by_cases h : goTrimSpace m = "" <;> simp [deleteCommitMsg, h]
  · intro r k v cfg id h
    exact create_ok_msg r k v cfg id h
  · intro r k cfg id h
    exact delete_ok_msg r k cfg id h
  · intro r k v cfg id h
    exact upsert_true_msg r k v cfg id h

/-- C8 witness: creating key "n" with the option message "  hi  "
records the trimmed "hi" on the new revision. -/
theorem claim_C8_witness :
    ((create repoEmpty "n" [2] (createCommitMsg "  hi  " createConfigDefault)).1).lastCommitMsg =
      (createCommitMsg "  hi  " createConfigDefault).commitMsg :=
  claim_C8_commit_message_option.2.2.2.1 repoEmpty "n" [2]
    (createCommitMsg "  hi  " createConfigDefault) 1 (by decide)

/-- C10 counterexample: the claim says a non-SCP input with an allowed
scheme is returned unchanged, but url.Parse lowercases the scheme, so an
upper-case spelling is accepted and returned in a different form. -/
theorem claim_C10_counterexample :
    scpMatch "HTTPS://example.com/x" = none ∧
    giturlParse "HTTPS://example.com/x" = Except.ok "https://example.com/x" ∧
    ("https://example.com/x" : String) ≠ "HTTPS://example.com/x" := by
  decide

/-- C10 (amended): an SCP-form input user@host:path is rebuilt as
ssh://user@host/path (the slash inserted before a relative path) and
accepted; any other input is URL-parsed, and its serialization — equal
to the input except that the scheme is lowercased — is returned exactly
when the lowercased scheme is one of git, https, http, git+ssh, ssh,
every other scheme being an error; a URL-parse failure is returned as
that error. -/
theorem claim_C10_giturl_parse :
    (∀ s user host p, scpMatch s = some (user, host, p) →
       giturlParse s = Except.ok ("ssh://" ++ user ++ "@" ++ host ++
         (if p = "" || headIsSlash p then p else "/" ++ p))) ∧
    (∀ s u, scpMatch s = none → urlParse s = Except.ok u →
       ((u.scheme = "git" ∨ u.scheme = "https" ∨ u.scheme = "http" ∨
         u.scheme = "git+ssh" ∨ u.scheme = "ssh") →
          giturlParse s = Except.ok (urlString u)) ∧
       (¬(u.scheme = "git" ∨ u.scheme = "https" ∨ u.scheme = "http" ∨
          u.scheme = "git+ssh" ∨ u.scheme = "ssh") →
          giturlParse s = Except.error ("unable to parse output of git url: " ++ s))) ∧
    (∀ s e, scpMatch s = none → urlParse s = Except.error e →
       giturlParse s = Except.error e) := by
  refine ⟨?_, ?_, ?_⟩
  · intro s user host p hm
    simp only [giturlParse, hm]
    rw [if_pos (show vcsGitScheme.contains
      (repoURLScheme (RepoURL.scp user host p)) = true from rfl)]
    rfl
  · intro s u hm hp
    constructor
    · intro hs
      simp only [giturlParse, hm, hp, Except.map]
      rw [if_pos]
      · rfl
      · show vcsGitScheme.contains u.scheme = true
        exact (contains_vcs u.scheme).mpr hs
    · intro hs
      simp only [giturlParse, hm, hp, Except.map]
      rw [if_neg]
      intro hcon
      exact hs ((contains_vcs u.scheme).mp hcon)
  · intro s e hm hp
    simp only [giturlParse, hm, hp, Except.map]

/-- C10 witness: the SCP address git@github.com:user/repo parses to
ssh://git@github.com/user/repo. -/
theorem claim_C10_witness :
    giturlParse "git@github.com:user/repo" =
      Except.ok ("ssh://" ++ "git" ++ "@" ++ "github.com" ++
        (if "user/repo" = "" || headIsSlash "user/repo" then "user/repo"
         else "/" ++ "user/repo")) :=
  claim_C10_giturl_parse.1 "git@github.com:user/repo" "git" "github.com" "user/repo"
    (by decide)

end Gitrows
